import Mathlib

/-!
Verification of the composerjs property-composition engine specification.

The repository ships the engine's design documentation together with a set of
concrete example handlers (currency, tenor, rate handlers).  The example
handlers are embedded here directly from their JavaScript source; the engine
itself (sealing, topological ordering, batched evaluation, multiplexing,
node-list management, the pending state machine) is not shipped as code, so it
is modelled from the specification text, with each such definition carrying a
doc comment that says so.
-/

namespace Composer

/- ======================================================================
   Part 1: example handler code embedded from the repository source.
   ====================================================================== -/

/-- JavaScript `s.substr(start, len)` for non-negative arguments: the run of
at most `len` characters of `s` beginning at index `start`. -/
def jsSubstr (s : List Char) (start len : Nat) : List Char :=
  (s.drop start).take len

/-- The output map produced by the currency handlers: the two properties
`baseCurrency` and `termCurrency`. -/
structure CurrencyOutput where
  baseCurrency : List Char
  termCurrency : List Char
deriving DecidableEq, Repr

/-- Embedded from `src/unnamed/part_000`-adjacent source `part_001`
(`currencyHandler`): `output.baseCurrency = input.currencyPair.substr(0, 3)`
and `output.termCurrency = input.currencyPair.substr(4, 6)`. -/
def currencyHandler (currencyPair : List Char) : CurrencyOutput :=
  { baseCurrency := jsSubstr currencyPair 0 3
    termCurrency := jsSubstr currencyPair 4 6 }

/-- Embedded from
`src/code-examples/currency-handler/DealtCurrencyHandler.js`
(`baseTermCurrencyHandler`), whose body is identical to `currencyHandler`. -/
def baseTermCurrencyHandler (currencyPair : List Char) : CurrencyOutput :=
  { baseCurrency := jsSubstr currencyPair 0 3
    termCurrency := jsSubstr currencyPair 4 6 }

/-- JavaScript runtime errors relevant to the embedded handlers: under
`'use strict'`, reading an undeclared identifier throws a `ReferenceError`
naming the identifier. -/
inductive JsError
  | referenceError (name : String)
deriving DecidableEq, Repr

/-- Strict-mode identifier lookup: resolve `x` in the given scope, throwing
`ReferenceError` when the identifier is not declared. -/
def lookupVar (scope : List (String × Int)) (x : String) : Except JsError Int :=
  match scope.find? (fun q => q.1 == x) with
  | some q => .ok q.2
  | none => .error (.referenceError x)

/-- Embedded from `src/unnamed/part_008` (`isTenorLessThan`): the body is
`return tenor < tenor2`, where the declared parameters are `tenor1` and
`tenor2`, so the identifier `tenor` is undeclared and is resolved through
strict-mode scope lookup. -/
def isTenorLessThan (tenor1 tenor2 : Int) : Except JsError Bool :=
  let scope := [("tenor1", tenor1), ("tenor2", tenor2)]
  match lookupVar scope "tenor" with
  | .error e => .error e
  | .ok a =>
    match lookupVar scope "tenor2" with
    | .error e => .error e
    | .ok b => .ok (decide (a < b))

/-- Embedded from `src/unnamed/part_008` (`multiLegTenorHandler`): dispatch on
`index > 0`, then `index < current.length - 1`, calling `isTenorLessThan` in
either guard (JavaScript `&&` short-circuits, so the guard calls happen only
when the index test passes), else copy `current[index].tenor`. -/
def multiLegTenorHandler (index : Nat) (current : List Int) : Except JsError Int :=
  let guard1 : Except JsError Bool :=
    if 0 < index then
      isTenorLessThan (current.getD index 0) (current.getD (index - 1) 0)
    else .ok false
  let guard2 : Except JsError Bool :=
    if index < current.length - 1 then
      match isTenorLessThan (current.getD index 0) (current.getD (index + 1) 0) with
      | .error e => .error e
      | .ok b => .ok (!b)
    else .ok false
  match guard1 with
  | .error e => .error e
  | .ok true => .ok (current.getD (index - 1) 0)
  | .ok false =>
    match guard2 with
    | .error e => .error e
    | .ok true => .ok (current.getD (index + 1) 0)
    | .ok false => .ok (current.getD index 0)

/- ======================================================================
   Part 2: the engine, modelled from the specification.

   The repository documents the engine (sealing, dependency-graph
   validation, topological ordering, batched evaluation) but does not ship
   its implementation, so the definitions below are modelled from the
   specification text (spec.md sections 3, 4.2, 4.3 and the README's
   "Sealing The Model" and "Atomicity" sections).
   ====================================================================== -/

/-- Modelled from the spec: a handler declares input and output property
names and a body; the body maps the resolved input values to a value for
each declared output (the engine implementation is not shipped in the
repository, so handlers over a flat model are modelled here). -/
structure Handler where
  inputs : List String
  outputs : List String
  fn : (String → Int) → String → Int

instance : Inhabited Handler := ⟨⟨[], [], fun _ _ => 0⟩⟩

/-- Modelled from the spec: a model during the Building phase holds the
registered handlers (in registration order), the externally defined
constants, and the set of properties marked multiplexable. -/
structure Model where
  handlers : List Handler
  constants : List (String × Int)
  multiplexed : List String

/-- A handler's shape: its declared input and output property names.  The
seal-time checks inspect only this shape, never the handler body. -/
structure Shape where
  inputs : List String
  outputs : List String
deriving DecidableEq, Repr

instance : Inhabited Shape := ⟨⟨[], []⟩⟩

def Handler.shape (h : Handler) : Shape := ⟨h.inputs, h.outputs⟩

/-- The shape of a whole model: handler shapes in registration order,
constant property names, multiplexable property names. -/
structure ModelShape where
  handlers : List Shape
  constants : List String
  multiplexed : List String
deriving DecidableEq, Repr

def Model.toShape (m : Model) : ModelShape :=
  ⟨m.handlers.map Handler.shape, m.constants.map Prod.fst, m.multiplexed⟩

/-- The registration indices of the handlers providing property `p`. -/
def ModelShape.handlerProvidersOf (ms : ModelShape) (p : String) : List Nat :=
  (List.range ms.handlers.length).filter
    (fun i => p ∈ (ms.handlers.getD i default).outputs)

def ModelShape.isConstant (ms : ModelShape) (p : String) : Bool :=
  p ∈ ms.constants

/-- Modelled from the spec: the number of providers of a property is the
number of handlers whose declared outputs contain it, plus one if it has
been defined as an external constant. -/
def ModelShape.providerCount (ms : ModelShape) (p : String) : Nat :=
  (ms.handlerProvidersOf p).length + (if ms.isConstant p then 1 else 0)

def ModelShape.declaredInputs (ms : ModelShape) : List String :=
  (ms.handlers.map Shape.inputs).flatten

def ModelShape.declaredOutputs (ms : ModelShape) : List String :=
  (ms.handlers.map Shape.outputs).flatten

/-- Modelled from the spec: seal-time check 1 fails when some declared
input property has no provider at all. -/
def ModelShape.unresolvedInputs (ms : ModelShape) : Bool :=
  ms.declaredInputs.any (fun p => ms.providerCount p == 0)

/-- Modelled from the spec: seal-time check 2 fails when some declared
output property that is not marked multiplexable has two or more
providers. -/
def ModelShape.duplicateProviders (ms : ModelShape) : Bool :=
  ms.declaredOutputs.any
    (fun p => decide (p ∉ ms.multiplexed) && decide (2 ≤ ms.providerCount p))

/-- Modelled from the spec's provider kinds (`none`, `single handler`,
`external constant`, `multiplexed set`): what a property resolves to. -/
inductive Provider
  | handlerProvider (i : Nat)
  | constantProvider
  | multiplexedSet (indices : List Nat)
deriving DecidableEq, Repr

/-- Modelled from the spec: resolve a property to its unique provider, or
`none` when it has no provider or conflicting non-multiplexed providers. -/
def ModelShape.resolveProvider (ms : ModelShape) (p : String) : Option Provider :=
  match ms.handlerProvidersOf p, ms.isConstant p with
  | [], false => none
  | [], true => some .constantProvider
  | [i], false => some (.handlerProvider i)
  | is, _ => if p ∈ ms.multiplexed then some (.multiplexedSet is) else none

/-- Does handler shape `g` provide one of the declared inputs of `h`? -/
def providesInputOf (g h : Shape) : Bool :=
  g.outputs.any (fun p => p ∈ h.inputs)

/-- The dependency edges of the seal-time graph: `j ∈ ms.deps i` when the
handler registered at `j` provides an input of the handler at `i`, so `j`
must run before `i`. -/
def ModelShape.deps (ms : ModelShape) (i : Nat) : List Nat :=
  (List.range ms.handlers.length).filter
    (fun j => providesInputOf (ms.handlers.getD j default) (ms.handlers.getD i default))

/-- A handler is ready to be emitted by the topological sort when it has not
been emitted yet and all handlers it depends on have been. -/
def ModelShape.readyHandler (ms : ModelShape) (emitted : List Nat) (i : Nat) : Bool :=
  decide (i ∉ emitted) && (ms.deps i).all (fun j => decide (j ∈ emitted))

/-- Modelled from the spec: Kahn-style topological sort.  At each step the
registration-earliest ready handler is emitted (the deterministic tie-break
for handlers with no ordering constraint); the sort fails when unemitted
handlers remain but none is ready, which happens exactly when the
dependency graph has a cycle. -/
def ModelShape.topoAux (ms : ModelShape) : Nat → List Nat → Option (List Nat)
  | 0, emitted =>
    if emitted.length = ms.handlers.length then some emitted else none
  | fuel + 1, emitted =>
    match (List.range ms.handlers.length).find? (ms.readyHandler emitted) with
    | some i => ms.topoAux fuel (emitted ++ [i])
    | none => if emitted.length = ms.handlers.length then some emitted else none

def ModelShape.topoSort (ms : ModelShape) : Option (List Nat) :=
  ms.topoAux ms.handlers.length []

/-- Modelled from the spec's error taxonomy: seal-time errors are either a
`StructuralError` (unresolved input, duplicate non-multiplexed provider) or
a `CircularDependencyError`. -/
inductive SealError
  | structuralError
  | circularDependencyError
deriving DecidableEq, Repr

/-- Modelled from the spec: `seal()` runs the verification checks in the
documented order — all inputs provided, outputs provided at most once
unless multiplexed, no circular dependencies — and on success fixes the
topological evaluation order.  Only the model's shape is inspected; no
handler body is invoked. -/
def sealShape (ms : ModelShape) : Except SealError (List Nat) :=
  if ms.unresolvedInputs then .error .structuralError
  else if ms.duplicateProviders then .error .structuralError
  else
    match ms.topoSort with
    | some ord => .ok ord
    | none => .error .circularDependencyError

/-- A sealed model: the building-phase model plus the evaluation order fixed
at seal time. -/
structure SealedModel where
  model : Model
  order : List Nat

/-- Modelled from the spec: `seal()` transitions a model from Building to
Sealed, or raises a seal-time error. -/
def sealModel (m : Model) : Except SealError SealedModel :=
  match sealShape m.toShape with
  | .ok ord => .ok ⟨m, ord⟩
  | .error e => .error e

def sealOk (m : Model) : Bool :=
  match sealModel m with
  | .ok _ => true
  | .error _ => false

/- ======================================================================
   Part 3: the scheduler/evaluator, modelled from the specification.
   ====================================================================== -/

/-- Look a property's current value up in the value store (most recent
write wins). -/
def lookupVal (vals : List (String × Int)) (p : String) : Int :=
  match vals.find? (fun q => q.1 == p) with
  | some q => q.2
  | none => 0

def setVal (vals : List (String × Int)) (p : String) (v : Int) :
    List (String × Int) :=
  (p, v) :: vals

/-- Modelled from the spec: invoking a handler supplies it the current
resolved input values and commits a value for each of its declared
outputs. -/
def runHandler (h : Handler) (vals : List (String × Int)) :
    List (String × Int) :=
  h.outputs.foldl (fun vs p => setVal vs p (h.fn (lookupVal vals) p)) vals

/-- Modelled from the spec: the run-time engine state after sealing — the
sealed model with its fixed evaluation order, the current property values,
the queue of not-yet-drained external writes, and the number of evaluation
batches performed so far. -/
structure Engine where
  sealedModel : SealedModel
  values : List (String × Int)
  queue : List (String × Int)
  batchCount : Nat

/-- Modelled from the spec (one evaluation batch): apply the queued external
writes, mark the directly written properties stale, then walk the handlers
in the topological order fixed at seal time, re-running each handler whose
inputs intersect the stale set and propagating staleness to its outputs. -/
def runBatch (e : Engine) : Engine :=
  let vals1 := e.queue.foldl (fun vs pv => setVal vs pv.1 pv.2) e.values
  let stale0 := e.queue.map Prod.fst
  let step := fun (st : List (String × Int) × List String) (i : Nat) =>
    let h := e.sealedModel.model.handlers.getD i default
    if h.inputs.any (fun p => p ∈ st.2) then
      (runHandler h st.1, st.2 ++ h.outputs)
    else st
  let final := e.sealedModel.order.foldl step (vals1, stale0)
  { e with values := final.1, queue := [], batchCount := e.batchCount + 1 }

/-- Modelled from the spec: drain point — perform one evaluation batch if
any external mutation is queued, otherwise do nothing. -/
def drain (e : Engine) : Engine :=
  if e.queue.isEmpty then e else runBatch e

/-- Modelled from the spec: an external write only enqueues a mutation
request; the batch is evaluated at the drain point. -/
def setProp (e : Engine) (p : String) (v : Int) : Engine :=
  { e with queue := e.queue ++ [(p, v)] }

/-- Modelled from the spec: a read drains any pending batch first
(read-your-writes consistency), then serves the value. -/
def getProp (e : Engine) (p : String) : Int × Engine :=
  let d := drain e
  (lookupVal d.values p, d)

/-- Modelled from the spec: activating a sealed model runs every handler
once in the seal-time topological order, starting from the externally
defined constants. -/
def initEngine (sm : SealedModel) : Engine :=
  let vals0 := sm.model.constants
  let vals1 := sm.order.foldl
    (fun vs i => runHandler (sm.model.handlers.getD i default) vs) vals0
  ⟨sm, vals1, [], 0⟩

/- ======================================================================
   Part 4: the concrete summation scenario from the spec and README.
   ====================================================================== -/

/-- The README's summation handler: consume `a` and `b`, produce
`sum = a + b`. -/
def sumHandler : Handler :=
  ⟨["a", "b"], ["sum"], fun env _ => env "a" + env "b"⟩

/-- The spec's concrete scenario model: the summation handler plus the
external constants `a = 2` and `b = 3`. -/
def scenarioModel : Model :=
  ⟨[sumHandler], [("a", 2), ("b", 3)], []⟩

/-- The sealed scenario model (seal succeeds and fixes the one-handler
evaluation order). -/
def scenarioSealed : SealedModel := ⟨scenarioModel, [0]⟩

def scenarioEngine : Engine := initEngine scenarioSealed

/- ======================================================================
   Part 5: the multiplex resolver, modelled from the specification.
   ====================================================================== -/

/-- Modelled from the spec's error taxonomy: a batch-time error raised when
simultaneously multiplexed values disagree. -/
inductive BatchError
  | multiplexConflict
deriving DecidableEq, Repr

/-- Modelled from the spec (MultiplexResolver): collect the values produced
for a multiplexable property within one batch; zero producers retain the
previous value, one producer supplies its value, several producers must all
compare equal or the batch fails with `MultiplexConflictError`. -/
def resolveMultiplex (prev : Int) (produced : List Int) :
    Except BatchError Int :=
  match produced with
  | [] => .ok prev
  | v :: rest =>
    if rest.all (fun w => w == v) then .ok v else .error .multiplexConflict

/-- Modelled from the spec: the value committed for a multiplexable property
at the end of a batch — on a multiplex conflict the batch fails and no
change is committed, so the property keeps its previous value. -/
def commitMultiplex (prev : Int) (produced : List Int) : Int :=
  match resolveMultiplex prev produced with
  | .ok v => v
  | .error _ => prev

/- ======================================================================
   Part 6: the pending/incoherent state machine, modelled from the spec.
   ====================================================================== -/

/-- Modelled from the spec: notifications emitted by the model that are
relevant to the pending/ready life cycle. -/
inductive Notification
  | pendingNote
  | resumedNote
deriving DecidableEq, Repr

/-- Modelled from the spec's error taxonomy: run-time misuse errors —
mutation attempted during handler evaluation, or access attempted while the
model is in the incoherent/pending state. -/
inductive RuntimeAccessError
  | mutationDuringEvaluation
  | incoherentState
deriving DecidableEq, Repr

/-- Modelled from the spec: the pending-state bookkeeping — which handlers
have declined to supply output, and the log of emitted notifications. -/
structure PendingState where
  pendingHandlers : List Nat
  log : List Notification
deriving DecidableEq, Repr

/-- The model is incoherent while any handler's outputs are pending. -/
def incoherent (s : PendingState) : Bool :=
  !s.pendingHandlers.isEmpty

/-- Modelled from the spec: a handler declines to supply output (signals
not-ready); its outputs become pending and the model emits a pending
notification. -/
def handlerDeclines (s : PendingState) (i : Nat) : PendingState :=
  if i ∈ s.pendingHandlers then s
  else ⟨i :: s.pendingHandlers, s.log ++ [.pendingNote]⟩

/-- Modelled from the spec: a previously pending handler later supplies its
output; once no handler is pending any more the model emits a
resumed/ready notification. -/
def handlerSupplies (s : PendingState) (i : Nat) : PendingState :=
  let rest := s.pendingHandlers.filter (fun j => j != i)
  ⟨rest,
   s.log ++ (if rest.isEmpty && !s.pendingHandlers.isEmpty
             then [.resumedNote] else [])⟩

/-- Modelled from the spec: an external read is rejected while the model is
in the incoherent/pending state, so no observer ever sees a partial
result. -/
def externalRead (s : PendingState) (e : Engine) (p : String) :
    Except RuntimeAccessError Int :=
  if incoherent s then .error .incoherentState
  else .ok (getProp e p).1

/-- Modelled from the spec: an external write is likewise rejected while the
model is incoherent. -/
def externalWrite (s : PendingState) (e : Engine) (p : String) (v : Int) :
    Except RuntimeAccessError Engine :=
  if incoherent s then .error .incoherentState
  else .ok (setProp e p v)

/- ======================================================================
   Part 7: handler-phase API guards, modelled from the specification.
   ====================================================================== -/

/-- Modelled from the spec: the engine's execution phase — idle, or inside
the evaluation phase with a handler body on the stack. -/
inductive Phase
  | idle
  | evaluating
deriving DecidableEq, Repr

/-- Modelled from the spec: a mutator call (such as `set()`) issued from a
handler body during the evaluation phase is rejected with an error. -/
def guardedSet (ph : Phase) (e : Engine) (p : String) (v : Int) :
    Except RuntimeAccessError Engine :=
  if ph = .evaluating then .error .mutationDuringEvaluation
  else .ok (setProp e p v)

/-- The result of a served read: the value, and whether a diagnostic warning
was logged to the console. -/
structure ReadResult where
  value : Int
  warningLogged : Bool
deriving DecidableEq, Repr

/-- Modelled from the spec: an accessor call (such as `get()`) issued from a
handler body is served against the not-yet-settled state with only a
diagnostic warning, never an error; an idle-phase read drains first. -/
def guardedGet (ph : Phase) (e : Engine) (p : String) : ReadResult :=
  if ph = .evaluating then ⟨lookupVal e.values p, true⟩
  else ⟨(getProp e p).1, false⟩

/- ======================================================================
   Part 8: node-list removal, modelled from the specification.
   ====================================================================== -/

/-- Modelled from the spec: a stateful handler instance attached to a
node-list item, with its disposal flag. -/
structure HandlerInstance where
  disposed : Bool
deriving DecidableEq, Repr

/-- Modelled from the spec: a node-list item knows its own index and owns
its stateful handler instances. -/
structure NodeListItem where
  index : Nat
  instances : List HandlerInstance
deriving DecidableEq, Repr

instance : Inhabited NodeListItem := ⟨⟨0, []⟩⟩

/-- The observable actions performed by a node-list mutation, in the order
they are performed. -/
inductive ListAction
  | disposeInstance (itemIndex : Nat) (instIndex : Nat)
  | detachItem (itemIndex : Nat)
  | mutationEvent
deriving DecidableEq, Repr

def ListAction.isDispose : ListAction → Bool
  | .disposeInstance _ _ => true
  | _ => false

def ListAction.isDetach : ListAction → Bool
  | .detachItem _ => true
  | _ => false

/-- Reindex the items of a node-list so that each item's `index` field again
equals its position. -/
def reindex (items : List NodeListItem) : List NodeListItem :=
  (List.range items.length).map
    (fun k => { items.getD k default with index := k })

/-- Modelled from the spec: `removeNode(index?)` — defaulting to the last
item, run `dispose()` on each of the item's stateful handler instances,
then detach the item, reindex the remaining items, and raise a Mutation
event; fails on an empty list or an out-of-range index. -/
def removeNode (items : List NodeListItem) (idx : Option Nat) :
    Option (List NodeListItem × List ListAction) :=
  if items.isEmpty then none
  else
    let k := idx.getD (items.length - 1)
    if k < items.length then
      let target := items.getD k default
      some (reindex (items.eraseIdx k),
        (List.range target.instances.length).map
          (fun j => ListAction.disposeInstance k j)
          ++ [ListAction.detachItem k, ListAction.mutationEvent])
    else none

/-- A two-handler dependency cycle: handler 0 consumes `q` and produces
`p`, handler 1 consumes `p` and produces `q`. -/
def cycleModel : Model :=
  ⟨[⟨["q"], ["p"], fun _ _ => 0⟩, ⟨["p"], ["q"], fun _ _ => 0⟩], [], []⟩

/-- A model whose handler inputs `a` and `b` have no provider. -/
def unresolvedModel : Model := ⟨[sumHandler], [], []⟩

/-- A model in which the non-multiplexed output `x` is provided by two
handlers. -/
def dupModel : Model :=
  ⟨[⟨[], ["x"], fun _ _ => 1⟩, ⟨[], ["x"], fun _ _ => 2⟩], [], []⟩

/- ======================================================================
   Part 9: the linearization invariant of the seal-time order.
   ====================================================================== -/

/-- The invariant maintained by the topological sort: all emitted handler
indices are in range and distinct, every emitted handler's dependencies
were emitted strictly earlier, and each emitted handler was the
registration-earliest handler ready at its step. -/
def ModelShape.orderInvariant (ms : ModelShape) (l : List Nat) : Prop :=
  (∀ x ∈ l, x < ms.handlers.length) ∧ l.Nodup ∧
    ∀ k (hk : k < l.length),
      (∀ j ∈ ms.deps (l.get ⟨k, hk⟩), j ∈ l.take k) ∧
      ∀ j < l.get ⟨k, hk⟩, ms.readyHandler (l.take k) j = false

/- ======================================================================
   Helper lemmas.
   ====================================================================== -/

lemma isTenorLessThan_throws (t1 t2 : Int) :
    isTenorLessThan t1 t2 = .error (.referenceError "tenor") := by
  simp [isTenorLessThan, lookupVar]

/-- In an action trace of the form `D ++ T` where no action of `D` is a
detach and no action of `T` is a dispose, every dispose position comes
strictly before every detach position. -/
lemma dispose_lt_detach {D T : List ListAction}
    (hD : ∀ a ∈ D, a.isDetach = false)
    (hT : ∀ a ∈ T, a.isDispose = false) :
    ∀ i j (hi : i < (D ++ T).length) (hj : j < (D ++ T).length),
      ((D ++ T).get ⟨i, hi⟩).isDispose = true →
      ((D ++ T).get ⟨j, hj⟩).isDetach = true → i < j := by
  intro i j hi hj hdisp hdet
  rw [List.get_eq_getElem] at hdisp hdet
  have hiD : i < D.length := by
    by_contra h
    push_neg at h
    rw [List.getElem_append_right h] at hdisp
    have hb : i - D.length < T.length := by
      rw [List.length_append] at hi
      omega
    have := hT _ (List.getElem_mem hb)
    rw [this] at hdisp
    exact Bool.false_ne_true hdisp
  have hjD : D.length ≤ j := by
    by_contra h
    push_neg at h
    rw [List.getElem_append_left h] at hdet
    have := hD _ (List.getElem_mem h)
    rw [this] at hdet
    exact Bool.false_ne_true hdet
  exact Nat.lt_of_lt_of_le hiD hjD

/-- When `find?` succeeds on `List.range n`, it returns the least index
satisfying the predicate. -/
lemma find?_range_first {n : Nat} {p : Nat → Bool} {i : Nat}
    (h : (List.range n).find? p = some i) :
    p i = true ∧ i < n ∧ ∀ j < i, p j = false := by
  rcases List.find?_eq_some.mp h with ⟨hp, as, bs, heq, hall⟩
  have hin : i ∈ List.range n := by
    rw [heq]
    exact List.mem_append_right as (List.mem_cons_self i bs)
  have hin' : i < n := List.mem_range.mp hin
  have hlen : as.length < (List.range n).length := by
    rw [heq, List.length_append, List.length_cons]
    omega
  have hi_eq : i = as.length := by
    have h3 := List.getElem_of_eq heq hlen
    rw [List.getElem_range] at h3
    rw [List.getElem_append_right (Nat.le_refl as.length)] at h3
    simp at h3
    exact h3.symm
  have has : as = List.range i := by
    have h1 : (List.range n).take as.length = as := by
      rw [heq, List.take_append_of_le_length (Nat.le_refl _), List.take_length]
    rw [List.take_range] at h1
    have hmin : as.length ⊓ n = as.length := by
      rw [← hi_eq] at *
      exact Nat.min_eq_left (Nat.le_of_lt hin')
    rw [hmin] at h1
    rw [hi_eq]
    exact h1.symm
  refine ⟨hp, hin', fun j hj => ?_⟩
  have hjmem : j ∈ as := by
    rw [has]
    exact List.mem_range.mpr hj
  have := hall j hjmem
  revert this
  cases p j <;> simp

/-- Membership within the first `k` elements bounds the first occurrence. -/
lemma indexOf_lt_of_mem_take {α : Type} [DecidableEq α] {j : α} :
    ∀ (l : List α) (k : Nat), j ∈ l.take k → l.indexOf j < k := by
  intro l
  induction l with
  | nil => intro k hk; simp at hk
  | cons x xs ih =>
    intro k hk
    cases k with
    | zero => simp at hk
    | succ k =>
      rw [List.take_succ_cons] at hk
      rcases List.mem_cons.mp hk with rfl | hmem
      · simp [List.indexOf_cons_self]
      · rw [List.indexOf_cons]
        cases hxj : x == j with
        | true => simp [Nat.succ_pos]
        | false =>
          simp only [cond_false]
          exact Nat.succ_lt_succ (ih k hmem)

/-- A duplicate-free list of naturals below `n` with length `n` contains
every natural below `n`. -/
lemma mem_of_nodup_bound_length {l : List Nat} {n : Nat}
    (hb : ∀ x ∈ l, x < n) (hd : l.Nodup) (hl : l.length = n) :
    ∀ i < n, i ∈ l := by
  intro i hi
  have hsub : l.toFinset ⊆ Finset.range n := by
    intro x hx
    exact Finset.mem_range.mpr (hb x (List.mem_toFinset.mp hx))
  have hcard : l.toFinset.card = n := by
    rw [List.toFinset_card_of_nodup hd, hl]
  have heq : l.toFinset = Finset.range n := by
    apply Finset.eq_of_subset_of_card_le hsub
    rw [hcard, Finset.card_range]
  have : i ∈ l.toFinset := by
    rw [heq]
    exact Finset.mem_range.mpr hi
  exact List.mem_toFinset.mp this

/-- The shape list of a model relates elementwise to its handler list. -/
lemma shape_getD {hs : List Handler} {i : Nat} (hi : i < hs.length) :
    (hs.map Handler.shape).getD i default = (hs.getD i default).shape := by
  have hi' : i < (hs.map Handler.shape).length := by
    rw [List.length_map]; exact hi
  rw [List.getD_eq_getElem _ _ hi', List.getD_eq_getElem _ _ hi,
    List.getElem_map]

/-- The empty emission list satisfies the topological-sort invariant. -/
lemma orderInvariant_nil (ms : ModelShape) : ms.orderInvariant [] := by
  refine ⟨by simp, List.nodup_nil, ?_⟩
  intro k hk
  simp at hk

/-- Emitting the least ready handler preserves the topological-sort
invariant. -/
lemma orderInvariant_append {ms : ModelShape} {l : List Nat} {i : Nat}
    (hInv : ms.orderInvariant l)
    (hready : ms.readyHandler l i = true)
    (hi : i < ms.handlers.length)
    (hmin : ∀ j < i, ms.readyHandler l j = false) :
    ms.orderInvariant (l ++ [i]) := by
  obtain ⟨hb, hd, hpos⟩ := hInv
  have hnotmem : i ∉ l := by
    have := (Bool.and_eq_true _ _).mp hready
    exact of_decide_eq_true this.1
  have hdeps : ∀ j ∈ ms.deps i, j ∈ l := by
    have := (Bool.and_eq_true _ _).mp hready
    intro j hj
    exact of_decide_eq_true (List.all_eq_true.mp this.2 j hj)
  refine ⟨?_, ?_, ?_⟩
  · intro x hx
    rcases List.mem_append.mp hx with h | h
    · exact hb x h
    · rcases List.mem_cons.mp h with rfl | h2
      · exact hi
      · exact absurd h2 (List.not_mem_nil x)
  · rw [List.nodup_append]
    refine ⟨hd, List.nodup_singleton i, ?_⟩
    intro a ha hai
    rcases List.mem_cons.mp hai with rfl | h2
    · exact hnotmem ha
    · exact absurd h2 (List.not_mem_nil a)
  · intro k hk
    have hk1 : k < l.length + 1 := by
      simpa using hk
    rcases Nat.lt_or_ge k l.length with hkl | hkl
    · have hget : (l ++ [i]).get ⟨k, hk⟩ = l.get ⟨k, hkl⟩ := by
        rw [List.get_eq_getElem, List.get_eq_getElem]
        exact List.getElem_append_left hkl
      have htake : (l ++ [i]).take k = l.take k :=
        List.take_append_of_le_length (Nat.le_of_lt hkl)
      rw [hget, htake]
      exact hpos k hkl
    · have hkeq : k = l.length := by omega
      subst hkeq
      have hget : (l ++ [i]).get ⟨l.length, hk⟩ = i := by
        rw [List.get_eq_getElem]
        rw [List.getElem_append_right (Nat.le_refl l.length)]
        simp
      have htake : (l ++ [i]).take l.length = l := List.take_left l [i]
      rw [hget, htake]
      exact ⟨hdeps, hmin⟩

/-- A successful run of the topological sort yields a complete emission
list satisfying the invariant. -/
lemma topoAux_invariant (ms : ModelShape) :
    ∀ (fuel : Nat) (l res : List Nat), ms.orderInvariant l →
      ms.topoAux fuel l = some res →
      ms.orderInvariant res ∧ res.length = ms.handlers.length := by
  intro fuel
  induction fuel with
  | zero =>
    intro l res hInv h
    rw [ModelShape.topoAux] at h
    by_cases hlen : l.length = ms.handlers.length
    · rw [if_pos hlen] at h
      cases h
      exact ⟨hInv, hlen⟩
    · rw [if_neg hlen] at h
      cases h
  | succ fuel ih =>
    intro l res hInv h
    rw [ModelShape.topoAux] at h
    cases hfind : (List.range ms.handlers.length).find? (ms.readyHandler l) with
    | some i =>
      rw [hfind] at h
      obtain ⟨hp, hin, hmin⟩ := find?_range_first hfind
      have hmin' : ∀ j < i, ms.readyHandler l j = false := by
        intro j hj
        exact hmin j hj
      exact ih (l ++ [i]) res (orderInvariant_append hInv hp hin hmin') h
    | none =>
      rw [hfind] at h
      by_cases hlen : l.length = ms.handlers.length
      · rw [if_pos hlen] at h
        cases h
        exact ⟨hInv, hlen⟩
      · rw [if_neg hlen] at h
        cases h

/-- A successful topological sort is a complete, duplicate-free
linearization respecting the dependency edges and picking the
registration-least ready handler at each step. -/
lemma topoSort_spec {ms : ModelShape} {res : List Nat}
    (h : ms.topoSort = some res) :
    ms.orderInvariant res ∧ res.length = ms.handlers.length :=
  topoAux_invariant ms ms.handlers.length [] res (orderInvariant_nil ms) h

/-- Two handlers whose outputs feed each other's inputs make the
topological sort fail. -/
lemma topoSort_cycle_none {ms : ModelShape} {a b : Nat}
    (hab : b ∈ ms.deps a) (hba : a ∈ ms.deps b)
    (ha : a < ms.handlers.length) :
    ms.topoSort = none := by
  cases htopo : ms.topoSort with
  | none => rfl
  | some res =>
    exfalso
    obtain ⟨⟨hb', hd, hpos⟩, hlen⟩ := topoSort_spec htopo
    have hbmem : b ∈ List.range ms.handlers.length := (List.mem_filter.mp hab).1
    have hbn : b < ms.handlers.length := List.mem_range.mp hbmem
    have hamem : a ∈ res :=
      mem_of_nodup_bound_length hb' hd hlen a ha
    have hbmem2 : b ∈ res :=
      mem_of_nodup_bound_length hb' hd hlen b hbn
    have hka : res.indexOf a < res.length := List.indexOf_lt_length.mpr hamem
    have hkb : res.indexOf b < res.length := List.indexOf_lt_length.mpr hbmem2
    have hgeta : res.get ⟨res.indexOf a, hka⟩ = a := by
      rw [List.get_eq_getElem]
      exact List.getElem_indexOf hka
    have hgetb : res.get ⟨res.indexOf b, hkb⟩ = b := by
      rw [List.get_eq_getElem]
      exact List.getElem_indexOf hkb
    have h1 : res.indexOf b < res.indexOf a := by
      have := (hpos (res.indexOf a) hka).1
      rw [hgeta] at this
      exact indexOf_lt_of_mem_take res (res.indexOf a) (this b hab)
    have h2 : res.indexOf a < res.indexOf b := by
      have := (hpos (res.indexOf b) hkb).1
      rw [hgetb] at this
      exact indexOf_lt_of_mem_take res (res.indexOf b) (this a hba)
    omega

/-- Inversion of a successful `sealModel`: the sealed model wraps the input
model and its order comes from `sealShape` on the model's shape. -/
lemma sealModel_ok_inv {m : Model} {sm : SealedModel}
    (h : sealModel m = .ok sm) :
    sm.model = m ∧ sealShape m.toShape = .ok sm.order := by
  rw [sealModel] at h
  cases hs : sealShape m.toShape with
  | ok ord =>
    rw [hs] at h
    cases h
    exact ⟨rfl, rfl⟩
  | error e =>
    rw [hs] at h
    cases h

/-- A seal-shape error propagates to `sealModel`. -/
lemma sealModel_error {m : Model} {e : SealError}
    (h : sealShape m.toShape = .error e) : sealModel m = .error e := by
  rw [sealModel, h]

/-- Inversion of a successful `sealShape`: both structural checks passed
and the topological sort succeeded. -/
lemma sealShape_ok_inv {ms : ModelShape} {ord : List Nat}
    (h : sealShape ms = .ok ord) :
    ms.unresolvedInputs = false ∧ ms.duplicateProviders = false ∧
      ms.topoSort = some ord := by
  rw [sealShape] at h
  by_cases hU : ms.unresolvedInputs = true
  · rw [if_pos hU] at h
    cases h
  · rw [if_neg hU] at h
    by_cases hD : ms.duplicateProviders = true
    · rw [if_pos hD] at h
      cases h
    · rw [if_neg hD] at h
      cases htopo : ms.topoSort with
      | some o =>
        rw [htopo] at h
        cases h
        exact ⟨Bool.not_eq_true _ ▸ hU, Bool.not_eq_true _ ▸ hD, rfl⟩
      | none =>
        rw [htopo] at h
        cases h

/-- A declared input of a registered handler is among the model shape's
declared inputs. -/
lemma mem_declaredInputs {m : Model} {h : Handler} {p : String}
    (hh : h ∈ m.handlers) (hp : p ∈ h.inputs) :
    p ∈ m.toShape.declaredInputs := by
  simp only [Model.toShape, ModelShape.declaredInputs, List.mem_flatten]
  refine ⟨h.inputs, ?_, hp⟩
  rw [List.map_map]
  exact List.mem_map.mpr ⟨h, hh, rfl⟩

/-- A property with a providing handler is among the model shape's declared
outputs. -/
lemma mem_declaredOutputs_of_provider {ms : ModelShape} {p : String} {i : Nat}
    (hi : i ∈ ms.handlerProvidersOf p) : p ∈ ms.declaredOutputs := by
  obtain ⟨hmem, hout⟩ := List.mem_filter.mp hi
  have hin : i < ms.handlers.length := List.mem_range.mp hmem
  have hgd : ms.handlers.getD i default ∈ ms.handlers := by
    rw [List.getD_eq_getElem _ _ hin]
    exact List.getElem_mem hin
  simp only [ModelShape.declaredOutputs, List.mem_flatten]
  exact ⟨(ms.handlers.getD i default).outputs,
    List.mem_map.mpr ⟨_, hgd, rfl⟩, of_decide_eq_true hout⟩

/-- When the duplicate-provider check passed, any declared output with two
or more providers must be multiplexable. -/
lemma mult_of_two_providers {ms : ModelShape} {p : String}
    (hD : ms.duplicateProviders = false) (hout : p ∈ ms.declaredOutputs)
    (h2 : 2 ≤ ms.providerCount p) : p ∈ ms.multiplexed := by
  by_contra hnm
  have : ms.duplicateProviders = true :=
    List.any_eq_true.mpr ⟨p, hout, by simp [hnm, h2]⟩
  rw [hD] at this
  cases this

/-- When the unresolved-input check passed, every declared input has a
nonzero provider count. -/
lemma providerCount_pos {ms : ModelShape} {p : String}
    (hU : ms.unresolvedInputs = false) (hp : p ∈ ms.declaredInputs) :
    ms.providerCount p ≠ 0 := by
  intro h0
  have : ms.unresolvedInputs = true :=
    List.any_eq_true.mpr ⟨p, hp, by simp [h0]⟩
  rw [hU] at this
  cases this

end Composer

/-- C9: for every string value of `input.currencyPair`, `currencyHandler`
(and the identical `baseTermCurrencyHandler`) sets `output.baseCurrency` to
the characters at indices 0 through 2 and `output.termCurrency` to the
characters starting at index 4 with length at most 6; for a 7-character
XXX/YYY pair the base currency is the first three and the term currency the
last three characters, while for a 6-character XXXYYY pair the term currency
is only the final two characters. -/
theorem composer_currency_handler_substr :
    (∀ cp : List Char,
        (Composer.currencyHandler cp).baseCurrency = cp.take 3 ∧
        (Composer.currencyHandler cp).termCurrency = (cp.drop 4).take 6 ∧
        (Composer.currencyHandler cp).termCurrency.length ≤ 6 ∧
        Composer.baseTermCurrencyHandler cp = Composer.currencyHandler cp) ∧
    (∀ a b c d e f g : Char,
        Composer.currencyHandler [a, b, c, d, e, f, g] =
          { baseCurrency := [a, b, c], termCurrency := [e, f, g] }) ∧
    (∀ a b c d e f : Char,
        Composer.currencyHandler [a, b, c, d, e, f] =
          { baseCurrency := [a, b, c], termCurrency := [e, f] }) := by
  refine ⟨fun cp => ⟨rfl, rfl, ?_, rfl⟩, fun a b c d e f g => rfl, fun a b c d e f => rfl⟩
  calc (Composer.currencyHandler cp).termCurrency.length
      = ((cp.drop 4).take 6).length := rfl
    _ ≤ 6 := by
        rw [List.length_take]
        exact min_le_left _ _

/-- C10: in the `src/unnamed/part_008` variant of `multiLegTenorHandler`, the
helper `isTenorLessThan` reads the undeclared identifier `tenor`, so under
strict mode every invocation with `index > 0` or `index < current.length - 1`
(in particular every invocation on a list with two or more items) throws a
`ReferenceError` before `out.tenor` is assigned; only for a single-item list
(index 0, length 1) does the handler terminate normally, copying
`current[0].tenor` to `out.tenor`. -/
theorem composer_multi_leg_tenor_reference_error :
    ∀ (index : Nat) (current : List Int),
      (index > 0 ∨ index < current.length - 1 →
        Composer.multiLegTenorHandler index current =
          .error (.referenceError "tenor")) ∧
      (index = 0 → current.length = 1 →
        Composer.multiLegTenorHandler index current = .ok (current.getD 0 0)) := by
  intro index current
  constructor
  · intro h
    rcases Nat.eq_zero_or_pos index with hz | hpos
    · subst hz
      have hlt : 0 < current.length - 1 := by
        rcases h with h | h
        · exact absurd h (lt_irrefl 0)
        · exact h
      simp [Composer.multiLegTenorHandler, hlt, Composer.isTenorLessThan_throws]
    · simp [Composer.multiLegTenorHandler, hpos, Composer.isTenorLessThan_throws]
  · intro h0 h1
    subst h0
    simp [Composer.multiLegTenorHandler, h1]

/-- Instantiation of `composer_multi_leg_tenor_reference_error`: on the
two-item list `[3, 5]` the handler throws for both indices, and on the
single-item list `[7]` it terminates normally returning 7. -/
theorem composer_multi_leg_tenor_reference_error_witness :
    Composer.multiLegTenorHandler 1 [3, 5] = .error (.referenceError "tenor") ∧
    Composer.multiLegTenorHandler 0 [3, 5] = .error (.referenceError "tenor") ∧
    Composer.multiLegTenorHandler 0 [7] = .ok 7 :=
  ⟨(composer_multi_leg_tenor_reference_error 1 [3, 5]).1 (Or.inl (by decide)),
   (composer_multi_leg_tenor_reference_error 0 [3, 5]).1 (Or.inr (by decide)),
   (composer_multi_leg_tenor_reference_error 0 [7]).2 rfl (by decide)⟩

/-- C1: in the concrete scenario — a handler consuming `a` and `b` and
producing `sum = a + b`, with `a` defined as the constant 2 and `b` as the
constant 3 — sealing succeeds with the one-handler evaluation order, reading
`sum` after seal yields 5, and after a subsequent external write of
`a = 10` reading `sum` yields 13, with exactly one evaluation batch
occurring between the write and the read. -/
theorem composer_sum_scenario :
    Composer.sealOk Composer.scenarioModel = true ∧
    Composer.sealModel Composer.scenarioModel = .ok Composer.scenarioSealed ∧
    (Composer.getProp Composer.scenarioEngine "sum").1 = 5 ∧
    (Composer.getProp
      (Composer.setProp (Composer.getProp Composer.scenarioEngine "sum").2
        "a" 10) "sum").1 = 13 ∧
    (Composer.getProp
      (Composer.setProp (Composer.getProp Composer.scenarioEngine "sum").2
        "a" 10) "sum").2.batchCount =
      (Composer.setProp (Composer.getProp Composer.scenarioEngine "sum").2
        "a" 10).batchCount + 1 :=
  ⟨rfl, rfl, by decide, by decide, by decide⟩

/-- C4: for a multiplexable property, within one batch: zero producers
retain the previous value; exactly one producer commits its value; several
producers must all compare equal, in which case their common value is
committed, and otherwise the batch fails with `MultiplexConflictError` and
no change is committed for the property. -/
theorem composer_multiplex_resolution :
    ∀ (prev : Int) (produced : List Int),
      (produced = [] →
        Composer.resolveMultiplex prev produced = .ok prev ∧
        Composer.commitMultiplex prev produced = prev) ∧
      (∀ v, produced = [v] →
        Composer.resolveMultiplex prev produced = .ok v ∧
        Composer.commitMultiplex prev produced = v) ∧
      (2 ≤ produced.length → (∀ v ∈ produced, ∀ w ∈ produced, v = w) →
        ∃ v, v ∈ produced ∧
          Composer.resolveMultiplex prev produced = .ok v ∧
          Composer.commitMultiplex prev produced = v) ∧
      (2 ≤ produced.length → (∃ v ∈ produced, ∃ w ∈ produced, v ≠ w) →
        Composer.resolveMultiplex prev produced = .error .multiplexConflict ∧
        Composer.commitMultiplex prev produced = prev) := by
  intro prev produced
  refine ⟨?_, ?_, ?_, ?_⟩
  · rintro rfl
    exact ⟨rfl, rfl⟩
  · rintro v rfl
    simp [Composer.resolveMultiplex, Composer.commitMultiplex]
  · intro hlen hall
    match produced with
    | [] => simp at hlen
    | v :: rest =>
      have hrest : rest.all (fun w => w == v) = true := by
        rw [List.all_eq_true]
        intro w hw
        have := hall w (List.mem_cons_of_mem v hw) v (List.mem_cons_self v rest)
        simp [this]
      refine ⟨v, List.mem_cons_self v rest, ?_, ?_⟩ <;>
        simp [Composer.resolveMultiplex, Composer.commitMultiplex, hrest]
  · intro _ hconf
    match produced with
    | [] => simp at hconf
    | v :: rest =>
      have hrest : rest.all (fun w => w == v) = false := by
        by_contra hc
        have hc' : rest.all (fun w => w == v) = true := by
          revert hc
          cases rest.all (fun w => w == v) <;> simp
        have hallv : ∀ x ∈ v :: rest, x = v := by
          intro x hx
          rcases List.mem_cons.mp hx with h | h
          · exact h
          · have := List.all_eq_true.mp hc' x h
            simpa using this
        rcases hconf with ⟨a, ha, b, hb, hab⟩
        exact hab ((hallv a ha).trans (hallv b hb).symm)
      constructor <;>
        simp [Composer.resolveMultiplex, Composer.commitMultiplex, hrest]

/-- Instantiations of `composer_multiplex_resolution` covering each of the
four producer configurations. -/
theorem composer_multiplex_resolution_witness :
    (Composer.resolveMultiplex 7 [] = .ok 7 ∧
      Composer.commitMultiplex 7 [] = 7) ∧
    (Composer.resolveMultiplex 7 [4] = .ok 4 ∧
      Composer.commitMultiplex 7 [4] = 4) ∧
    (∃ v, v ∈ [5, 5] ∧ Composer.resolveMultiplex 7 [5, 5] = .ok v ∧
      Composer.commitMultiplex 7 [5, 5] = v) ∧
    (Composer.resolveMultiplex 7 [1, 2] = .error .multiplexConflict ∧
      Composer.commitMultiplex 7 [1, 2] = 7) :=
  ⟨(composer_multiplex_resolution 7 []).1 rfl,
   (composer_multiplex_resolution 7 [4]).2.1 4 rfl,
   (composer_multiplex_resolution 7 [5, 5]).2.2.1 (by decide) (by decide),
   (composer_multiplex_resolution 7 [1, 2]).2.2.2 (by decide)
     ⟨1, by decide, 2, by decide, by decide⟩⟩

/-- C5: when a handler declines to supply its output, the model enters the
incoherent pending state: every external read or write is rejected, a
pending notification is emitted, and once the handler later supplies its
output a resumed notification is emitted and the model is coherent again;
the read rejection is what guarantees no observer sees a partial result. -/
theorem composer_pending_state_machine :
    ∀ (s : Composer.PendingState) (i : Nat), s.pendingHandlers = [] →
      Composer.incoherent (Composer.handlerDeclines s i) = true ∧
      (∀ e p, Composer.externalRead (Composer.handlerDeclines s i) e p =
        .error .incoherentState) ∧
      (∀ e p v, Composer.externalWrite (Composer.handlerDeclines s i) e p v =
        .error .incoherentState) ∧
      (Composer.handlerDeclines s i).log = s.log ++ [.pendingNote] ∧
      Composer.incoherent
        (Composer.handlerSupplies (Composer.handlerDeclines s i) i) = false ∧
      (Composer.handlerSupplies (Composer.handlerDeclines s i) i).log =
        s.log ++ [.pendingNote, .resumedNote] := by
  rintro ⟨pend, log⟩ i h
  simp only at h
  subst h
  refine ⟨?_, ?_, ?_, ?_, ?_, ?_⟩ <;>
    simp [Composer.handlerDeclines, Composer.handlerSupplies,
      Composer.incoherent, Composer.externalRead, Composer.externalWrite]

/-- Instantiation of `composer_pending_state_machine` at the empty initial
state with handler 0 declining and then supplying. -/
theorem composer_pending_state_machine_witness :
    Composer.incoherent (Composer.handlerDeclines ⟨[], []⟩ 0) = true ∧
    (Composer.handlerSupplies (Composer.handlerDeclines ⟨[], []⟩ 0) 0).log =
      [.pendingNote, .resumedNote] := by
  have h := composer_pending_state_machine ⟨[], []⟩ 0 rfl
  exact ⟨h.1, by simpa using h.2.2.2.2.2⟩

/-- C6: during the evaluation phase, a mutator call (`set()`) issued from a
handler body is rejected with an error, while an accessor call (`get()`)
issued from a handler body is served against the not-yet-settled state with
only a diagnostic warning — by type it cannot raise an error. -/
theorem composer_handler_phase_guards :
    ∀ (e : Composer.Engine) (p : String) (v : Int),
      Composer.guardedSet .evaluating e p v =
        .error .mutationDuringEvaluation ∧
      Composer.guardedGet .evaluating e p =
        ⟨Composer.lookupVal e.values p, true⟩ ∧
      (Composer.guardedGet .evaluating e p).warningLogged = true ∧
      Composer.guardedSet .idle e p v = .ok (Composer.setProp e p v) := by
  intro e p v
  refine ⟨rfl, rfl, rfl, ?_⟩
  simp [Composer.guardedSet]

/-- C8: for every non-empty node-list, `removeNode()` called without an
index removes the last item; the removed item's stateful handler instances
are all disposed before the item is detached; the remaining items are
reindexed so that each item's index equals its position; and a Mutation
event is raised. -/
theorem composer_remove_node_last :
    ∀ items : List Composer.NodeListItem, items ≠ [] →
      ∃ rest acts,
        Composer.removeNode items none = some (rest, acts) ∧
        rest = Composer.reindex (items.take (items.length - 1)) ∧
        rest.length = items.length - 1 ∧
        (∀ k (hk : k < rest.length), (rest.get ⟨k, hk⟩).index = k) ∧
        Composer.ListAction.mutationEvent ∈ acts ∧
        (∀ i j (hi : i < acts.length) (hj : j < acts.length),
          (acts.get ⟨i, hi⟩).isDispose = true →
          (acts.get ⟨j, hj⟩).isDetach = true → i < j) := by
  intro items hne
  have hpos : 0 < items.length := List.length_pos.mpr hne
  have hk : items.length - 1 < items.length := Nat.sub_lt hpos Nat.one_pos
  have hempty : items.isEmpty = false := by
    cases items with
    | nil => exact absurd rfl hne
    | cons a as => rfl
  have herase :
      items.eraseIdx (items.length - 1) = items.take (items.length - 1) := by
    rw [List.eraseIdx_eq_take_drop_succ]
    have h1 : items.length - 1 + 1 = items.length := Nat.succ_pred_eq_of_pos hpos
    rw [h1, List.drop_length, List.append_nil]
  have hrm : Composer.removeNode items none =
      some (Composer.reindex (items.take (items.length - 1)),
        (List.range
          (items.getD (items.length - 1) default).instances.length).map
          (fun j => Composer.ListAction.disposeInstance (items.length - 1) j)
          ++ [Composer.ListAction.detachItem (items.length - 1),
              Composer.ListAction.mutationEvent]) := by
    rw [Composer.removeNode, hempty]
    simp only [Bool.false_eq_true, if_false, Option.getD_none, if_pos hk,
      herase]
  refine ⟨_, _, hrm, rfl, ?_, ?_, ?_, ?_⟩
  · simp only [Composer.reindex, List.length_map, List.length_range,
      List.length_take]
    exact Nat.min_eq_left (Nat.le_of_lt hk)
  · intro k hk2
    simp only [Composer.reindex, List.get_eq_getElem, List.getElem_map,
      List.getElem_range]
  · exact List.mem_append_right _ (by simp)
  · exact Composer.dispose_lt_detach
      (by
        intro a ha
        rcases List.mem_map.mp ha with ⟨j, _, rfl⟩
        rfl)
      (by
        intro a ha
        rcases List.mem_cons.mp ha with rfl | ha2
        · rfl
        · rcases List.mem_cons.mp ha2 with rfl | ha3
          · rfl
          · exact absurd ha3 (List.not_mem_nil a))

/-- C7: for any sealed model, the evaluation order fixed at seal time is a
valid linearization of the handler dependency graph: it enumerates every
registered handler exactly once, every handler appears strictly after all
handlers providing its inputs (inputs provided by external constants
induce no edge), and at each step the emitted handler is the
registration-earliest one whose dependencies are already emitted — the
deterministic registration-order tie-break for independent handlers. -/
theorem composer_topological_order :
    ∀ (m : Composer.Model) (sm : Composer.SealedModel),
      Composer.sealModel m = .ok sm →
      sm.model = m ∧
      sm.order.length = m.handlers.length ∧
      sm.order.Nodup ∧
      (∀ i < m.handlers.length, i ∈ sm.order) ∧
      (∀ k (hk : k < sm.order.length),
        ∀ j ∈ m.toShape.deps (sm.order.get ⟨k, hk⟩), j ∈ sm.order.take k) ∧
      (∀ k (hk : k < sm.order.length),
        ∀ j < sm.order.get ⟨k, hk⟩,
          m.toShape.readyHandler (sm.order.take k) j = false) := by
  intro m sm h
  obtain ⟨hm, hshape⟩ := Composer.sealModel_ok_inv h
  obtain ⟨hU, hD, htopo⟩ := Composer.sealShape_ok_inv hshape
  obtain ⟨⟨hb, hd, hpos⟩, hlen⟩ := Composer.topoSort_spec htopo
  have hlen_eq : m.toShape.handlers.length = m.handlers.length := by
    simp [Composer.Model.toShape]
  refine ⟨hm, by rw [hlen, hlen_eq], hd, ?_,
    fun k hk => (hpos k hk).1, fun k hk => (hpos k hk).2⟩
  intro i hi
  exact Composer.mem_of_nodup_bound_length hb hd hlen i (hlen_eq ▸ hi)

/-- Instantiation of `composer_topological_order` on the sealed summation
scenario model. -/
theorem composer_topological_order_witness :
    Composer.scenarioSealed.order.length =
      Composer.scenarioModel.handlers.length ∧
    (∀ i < Composer.scenarioModel.handlers.length,
      i ∈ Composer.scenarioSealed.order) :=
  ⟨(composer_topological_order Composer.scenarioModel
      Composer.scenarioSealed rfl).2.1,
   (composer_topological_order Composer.scenarioModel
      Composer.scenarioSealed rfl).2.2.2.1⟩

/-- C2: for every model in which two handlers form a dependency cycle —
handler `a` outputs `pa` consumed by handler `b`, and `b` outputs `pb`
consumed by `a` — and which passes the prior structural checks, `seal()`
raises `CircularDependencyError`; and because sealing inspects only the
model's shape, the outcome is identical for any model with the same shape
but different handler bodies, so no handler body is ever invoked. -/
theorem composer_cycle_detection :
    ∀ (m : Composer.Model) (a b : Nat) (pa pb : String),
      a < m.handlers.length → b < m.handlers.length →
      pa ∈ (m.handlers.getD a default).outputs →
      pa ∈ (m.handlers.getD b default).inputs →
      pb ∈ (m.handlers.getD b default).outputs →
      pb ∈ (m.handlers.getD a default).inputs →
      m.toShape.unresolvedInputs = false →
      m.toShape.duplicateProviders = false →
      Composer.sealModel m = .error .circularDependencyError ∧
      (∀ m' : Composer.Model, m'.toShape = m.toShape →
        Composer.sealModel m' = .error .circularDependencyError) := by
  intro m a b pa pb ha hb hpaout hpain hpbout hpbin hU hD
  have hsh : m.toShape.handlers = m.handlers.map Composer.Handler.shape := rfl
  have hlen_eq : m.toShape.handlers.length = m.handlers.length := by
    rw [hsh, List.length_map]
  have hprov_ba : Composer.providesInputOf
      (m.toShape.handlers.getD b default)
      (m.toShape.handlers.getD a default) = true := by
    rw [hsh, Composer.shape_getD hb, Composer.shape_getD ha]
    simp only [Composer.providesInputOf, Composer.Handler.shape,
      List.any_eq_true]
    exact ⟨pb, hpbout, by simpa using hpbin⟩
  have hprov_ab : Composer.providesInputOf
      (m.toShape.handlers.getD a default)
      (m.toShape.handlers.getD b default) = true := by
    rw [hsh, Composer.shape_getD hb, Composer.shape_getD ha]
    simp only [Composer.providesInputOf, Composer.Handler.shape,
      List.any_eq_true]
    exact ⟨pa, hpaout, by simpa using hpain⟩
  have hdep_ba : b ∈ m.toShape.deps a :=
    List.mem_filter.mpr ⟨List.mem_range.mpr (hlen_eq ▸ hb), hprov_ba⟩
  have hdep_ab : a ∈ m.toShape.deps b :=
    List.mem_filter.mpr ⟨List.mem_range.mpr (hlen_eq ▸ ha), hprov_ab⟩
  have htopo : m.toShape.topoSort = none :=
    Composer.topoSort_cycle_none hdep_ba hdep_ab (hlen_eq ▸ ha)
  have hss : Composer.sealShape m.toShape = .error .circularDependencyError := by
    rw [Composer.sealShape, hU, hD, htopo]
    simp
  refine ⟨Composer.sealModel_error hss, ?_⟩
  intro m' hm'
  apply Composer.sealModel_error
  rw [hm']
  exact hss

/-- Instantiation of `composer_cycle_detection` on the concrete two-handler
cycle `p -> q -> p`. -/
theorem composer_cycle_detection_witness :
    Composer.sealModel Composer.cycleModel = .error .circularDependencyError :=
  (composer_cycle_detection Composer.cycleModel 0 1 "p" "q"
    (by decide) (by decide) (by decide) (by decide) (by decide) (by decide)
    (by decide) (by decide)).1

/-- C3: `seal()` raises a `StructuralError` whenever some declared input
property has no provider (no handler output and no external constant), or
some non-multiplexed property is provided by more than one handler; and
when `seal()` succeeds, every declared input resolves to exactly one
provider (a single handler, an external constant, or — for multiplexable
properties — the one multiplexed provider set). -/
theorem composer_structural_validation :
    ∀ m : Composer.Model,
      ((∃ h ∈ m.handlers, ∃ p ∈ h.inputs,
          m.toShape.providerCount p = 0) →
        Composer.sealModel m = .error .structuralError) ∧
      ((∃ p ∈ m.toShape.declaredOutputs, p ∉ m.multiplexed ∧
          2 ≤ (m.toShape.handlerProvidersOf p).length) →
        Composer.sealModel m = .error .structuralError) ∧
      (∀ sm, Composer.sealModel m = .ok sm →
        ∀ h ∈ m.handlers, ∀ p ∈ h.inputs,
          (m.toShape.resolveProvider p).isSome = true) := by
  intro m
  refine ⟨?_, ?_, ?_⟩
  · rintro ⟨h, hh, p, hp, hcount⟩
    have hU : m.toShape.unresolvedInputs = true :=
      List.any_eq_true.mpr
        ⟨p, Composer.mem_declaredInputs hh hp, by simp [hcount]⟩
    apply Composer.sealModel_error
    rw [Composer.sealShape, hU]
    simp
  · rintro ⟨p, hpout, hnm, h2⟩
    have hcount2 : 2 ≤ m.toShape.providerCount p :=
      le_trans h2 (Nat.le_add_right _ _)
    have hnm' : p ∉ m.toShape.multiplexed := hnm
    have hDtrue : m.toShape.duplicateProviders = true :=
      List.any_eq_true.mpr ⟨p, hpout, by simp [hnm', hcount2]⟩
    apply Composer.sealModel_error
    by_cases hU : m.toShape.unresolvedInputs = true
    · rw [Composer.sealShape, hU]
      simp
    · rw [Composer.sealShape, if_neg hU, hDtrue]
      simp
  · intro sm hok h hh p hp
    obtain ⟨_, hshape⟩ := Composer.sealModel_ok_inv hok
    obtain ⟨hU, hD, _⟩ := Composer.sealShape_ok_inv hshape
    have hpin := Composer.mem_declaredInputs hh hp
    have hne := Composer.providerCount_pos hU hpin
    rcases hlist : m.toShape.handlerProvidersOf p with _ | ⟨i, rest⟩
    · cases hconst : m.toShape.isConstant p with
      | false =>
        exfalso
        apply hne
        rw [Composer.ModelShape.providerCount, hlist, hconst]
        simp
      | true =>
        simp [Composer.ModelShape.resolveProvider, hlist, hconst]
    · cases rest with
      | nil =>
        cases hconst : m.toShape.isConstant p with
        | false =>
          simp [Composer.ModelShape.resolveProvider, hlist, hconst]
        | true =>
          have h2 : 2 ≤ m.toShape.providerCount p := by
            rw [Composer.ModelShape.providerCount, hlist, hconst]
            simp
          have hmem_i : i ∈ m.toShape.handlerProvidersOf p := by
            rw [hlist]
            exact List.mem_singleton.mpr rfl
          have hmult := Composer.mult_of_two_providers hD
            (Composer.mem_declaredOutputs_of_provider hmem_i) h2
          simp [Composer.ModelShape.resolveProvider, hlist, hconst, hmult]
      | cons j rest2 =>
        have h2 : 2 ≤ m.toShape.providerCount p := by
          rw [Composer.ModelShape.providerCount, hlist]
          simp only [List.length_cons]
          omega
        have hmem_i : i ∈ m.toShape.handlerProvidersOf p := by
          rw [hlist]
          exact List.mem_cons_self _ _
        have hmult := Composer.mult_of_two_providers hD
          (Composer.mem_declaredOutputs_of_provider hmem_i) h2
        simp [Composer.ModelShape.resolveProvider, hlist, hmult]

/-- Instantiations of `composer_structural_validation`: an unresolved-input
model and a duplicate-provider model both seal with a `StructuralError`,
while the well-formed summation scenario resolves every input. -/
theorem composer_structural_validation_witness :
    Composer.sealModel Composer.unresolvedModel = .error .structuralError ∧
    Composer.sealModel Composer.dupModel = .error .structuralError ∧
    (∀ h ∈ Composer.scenarioModel.handlers, ∀ p ∈ h.inputs,
      (Composer.scenarioModel.toShape.resolveProvider p).isSome = true) :=
  ⟨(composer_structural_validation Composer.unresolvedModel).1
     ⟨Composer.sumHandler, List.mem_singleton.mpr rfl, "a",
       by decide, by decide⟩,
   (composer_structural_validation Composer.dupModel).2.1
     ⟨"x", by decide, by decide, by decide⟩,
   (composer_structural_validation Composer.scenarioModel).2.2
     Composer.scenarioSealed rfl⟩

/-- Instantiation of `composer_remove_node_last` on a concrete two-item
node-list whose last item owns one stateful handler instance. -/
theorem composer_remove_node_last_witness :
    ∃ rest acts,
      Composer.removeNode
        [⟨0, []⟩, ⟨1, [⟨false⟩]⟩] none = some (rest, acts) ∧
      rest = Composer.reindex
        (([⟨0, []⟩, ⟨1, [⟨false⟩]⟩] : List Composer.NodeListItem).take
          (([⟨0, []⟩, ⟨1, [⟨false⟩]⟩] : List Composer.NodeListItem).length - 1)) ∧
      rest.length =
        ([⟨0, []⟩, ⟨1, [⟨false⟩]⟩] : List Composer.NodeListItem).length - 1 ∧
      (∀ k (hk : k < rest.length), (rest.get ⟨k, hk⟩).index = k) ∧
      Composer.ListAction.mutationEvent ∈ acts ∧
      (∀ i j (hi : i < acts.length) (hj : j < acts.length),
        (acts.get ⟨i, hi⟩).isDispose = true →
        (acts.get ⟨j, hj⟩).isDetach = true → i < j) :=
  composer_remove_node_last [⟨0, []⟩, ⟨1, [⟨false⟩]⟩] (by simp)
